import Mathlib

/-!
# Verification of the iff2png IFF picture decoding library

Shallow embedding of the decoding routines of `iffpicturelib`
(`image_decoder.c`, `iffpicture.c`, `image_analyzer.c`) and proofs about
them.  Byte streams are modelled as `List Nat` (each element a byte value),
bit streams as `List Bool` together with a count of bits consumed so far
(the count carries the C bitstream's byte-alignment state).  Machine
arithmetic is modelled with `Nat` and explicit `% 2^w` where the C code
truncates.  Loops whose termination rests on the finiteness of the input
stream are written with an explicit fuel argument; callers pass a fuel
that is at least the stream length, which the accompanying fuel lemmas
show is enough for the result to be fuel-independent.
-/

/-! ## ByteRun1 run-length codec (`DecompressByteRun1`, image_decoder.c:663-713)

The C routine reads control bytes from the IFF stream and fills a
destination buffer of `destBytes` bytes: control byte 0..127 copies the
next code+1 literal bytes, 128 is a no-op, and 129..255 reads one byte
and writes it (256-code)+1 times.  A control code whose expansion would
exceed the remaining destination space, or a short source read, aborts
with -1.  The loop runs while `bytesLeft > 0`.  Each iteration consumes
at least one source byte, so the source length bounds the iteration
count; `byteRun1Go` makes that bound an explicit fuel argument. -/
def byteRun1Go : Nat → List Nat → Nat → Option (List Nat × List Nat)
  | _, src, 0 => some ([], src)
  | 0, _, _ + 1 => none
  | _ + 1, [], _ + 1 => none
  | fuel + 1, code :: rest, d + 1 =>
    if code ≤ 127 then
      let count := code + 1
      if d + 1 < count then none
      else if rest.length < count then none
      else
        match byteRun1Go fuel (rest.drop count) (d + 1 - count) with
        | none => none
        | some (out, rem) => some (rest.take count ++ out, rem)
    else if code = 128 then
      byteRun1Go fuel rest (d + 1)
    else
      let count := 256 - code
      if d + 1 < count + 1 then none
      else
        match rest with
        | [] => none
        | v :: rest2 =>
          match byteRun1Go fuel rest2 (d + 1 - (count + 1)) with
          | none => none
          | some (out, rem) => some (List.replicate (count + 1) v ++ out, rem)

/-- `DecompressByteRun1` over a byte-list source: the decompressed bytes
together with the unconsumed remainder of the source, or `none` where the
C code returns -1.  The fuel `src.length` is sufficient because every
loop iteration consumes at least the control byte. -/
def decompressByteRun1 (src : List Nat) (destLen : Nat) : Option (List Nat × List Nat) :=
  byteRun1Go src.length src destLen

/-- The result of `byteRun1Go` does not depend on the fuel as long as the
fuel is at least the source length. -/
theorem byteRun1Go_fuel (f : Nat) : ∀ (g : Nat) (src : List Nat) (d : Nat),
    src.length ≤ f → src.length ≤ g → byteRun1Go f src d = byteRun1Go g src d := by
  induction f with
  | zero =>
    intro g src d hf hg
    have hsrc : src = [] := List.length_eq_zero.mp (Nat.le_zero.mp hf)
    subst hsrc
    cases d with
    | zero => cases g <;> rfl
    | succ d => cases g <;> rfl
  | succ f ih =>
    intro g src d hf hg
    cases d with
    | zero => cases src <;> cases g <;> rfl
    | succ d =>
      cases src with
      | nil => cases g <;> rfl
      | cons code rest =>
        cases g with
        | zero => simp at hg
        | succ g =>
          have hrest_f : rest.length ≤ f := by simpa using hf
          have hrest_g : rest.length ≤ g := by simpa using hg
          show byteRun1Go (f + 1) (code :: rest) (d + 1) = byteRun1Go (g + 1) (code :: rest) (d + 1)
          simp only [byteRun1Go]
          by_cases h1 : code ≤ 127
          · simp only [if_pos h1]
            rw [ih g (rest.drop (code + 1)) (d + 1 - (code + 1))
              (by simp only [List.length_drop]; omega)
              (by simp only [List.length_drop]; omega)]
          · simp only [if_neg h1]
            by_cases h2 : code = 128
            · simp only [if_pos h2]
              exact ih g rest (d + 1) hrest_f hrest_g
            · simp only [if_neg h2]
              cases rest with
              | nil => rfl
              | cons v rest2 =>
                dsimp only
                rw [ih g rest2 (d + 1 - (256 - code + 1))
                  (by simp only [List.length_cons] at hrest_f; omega)
                  (by simp only [List.length_cons] at hrest_g; omega)]

/-- Decompression stops exactly when `destLen` bytes have been produced:
a successful call yields an output of length `destLen`. -/
theorem byteRun1Go_length (f : Nat) : ∀ (src : List Nat) (d : Nat) (out rem : List Nat),
    byteRun1Go f src d = some (out, rem) → out.length = d := by
  induction f with
  | zero =>
    intro src d out rem h
    cases d with
    | zero => cases src <;> (cases h; rfl)
    | succ d => cases src <;> cases h
  | succ f ih =>
    intro src d out rem h
    cases d with
    | zero => cases src <;> (cases h; rfl)
    | succ d =>
      cases src with
      | nil => cases h
      | cons code rest =>
        simp only [byteRun1Go] at h
        by_cases h1 : code ≤ 127
        · simp only [if_pos h1] at h
          by_cases h2 : d + 1 < code + 1
          · rw [if_pos h2] at h; cases h
          · rw [if_neg h2] at h
            by_cases h3 : rest.length < code + 1
            · rw [if_pos h3] at h; cases h
            · rw [if_neg h3] at h
              cases hrec : byteRun1Go f (rest.drop (code + 1)) (d + 1 - (code + 1)) with
              | none => rw [hrec] at h; cases h
              | some p =>
                rw [hrec] at h
                cases p with
                | mk out2 rem2 =>
                  cases h
                  have hlen := ih _ _ _ _ hrec
                  have htake : (rest.take (code + 1)).length = code + 1 := by
                    rw [List.length_take]; omega
                  simp only [List.length_append, htake, hlen]
                  omega
        · simp only [if_neg h1] at h
          by_cases h2 : code = 128
          · simp only [if_pos h2] at h
            exact ih _ _ _ _ h
          · simp only [if_neg h2] at h
            by_cases h3 : d + 1 < 256 - code + 1
            · rw [if_pos h3] at h; cases h
            · rw [if_neg h3] at h
              cases rest with
              | nil => cases h
              | cons v rest2 =>
                dsimp only at h
                cases hrec : byteRun1Go f rest2 (d + 1 - (256 - code + 1)) with
                | none => rw [hrec] at h; cases h
                | some p =>
                  rw [hrec] at h
                  cases p with
                  | mk out2 rem2 =>
                    cases h
                    have hlen := ih _ _ _ _ hrec
                    simp only [List.length_append, List.length_replicate, hlen]
                    omega

/-- A destination length of zero completes immediately without reading
any control byte. -/
theorem byteRun1_destZero (src : List Nat) : decompressByteRun1 src 0 = some ([], src) := by
  unfold decompressByteRun1
  cases src <;> rfl

/-- An empty source with bytes still to produce is a short read and fails. -/
theorem byteRun1_truncatedEmpty (d : Nat) (hd : 0 < d) : decompressByteRun1 [] d = none := by
  unfold decompressByteRun1
  cases d with
  | zero => omega
  | succ d => rfl

/-- Control byte 0..127 copies the next code+1 literal bytes and continues
on the rest of the destination. -/
theorem byteRun1_literal (code : Nat) (rest : List Nat) (d : Nat)
    (h1 : code ≤ 127) (h2 : code + 1 ≤ d) (h3 : ¬rest.length < code + 1) :
    decompressByteRun1 (code :: rest) d =
      (decompressByteRun1 (rest.drop (code + 1)) (d - (code + 1))).map
        (fun p => (rest.take (code + 1) ++ p.1, p.2)) := by
  cases d with
  | zero => omega
  | succ d =>
    show byteRun1Go (rest.length + 1) (code :: rest) (d + 1) = _
    simp only [byteRun1Go, if_pos h1, if_neg (by omega : ¬d + 1 < code + 1), if_neg h3]
    rw [byteRun1Go_fuel rest.length ((rest.drop (code + 1)).length) (rest.drop (code + 1))
      (d + 1 - (code + 1)) (by simp only [List.length_drop]; omega) (le_refl _)]
    show (match decompressByteRun1 (rest.drop (code + 1)) (d + 1 - (code + 1)) with
      | none => none
      | some (out, rem) => some (rest.take (code + 1) ++ out, rem)) = _
    cases decompressByteRun1 (rest.drop (code + 1)) (d + 1 - (code + 1)) with
    | none => rfl
    | some p => cases p; rfl

/-- A literal run longer than the remaining destination space fails. -/
theorem byteRun1_literalOverflow (code : Nat) (rest : List Nat) (d : Nat)
    (h1 : code ≤ 127) (hd : 0 < d) (h2 : d < code + 1) :
    decompressByteRun1 (code :: rest) d = none := by
  cases d with
  | zero => omega
  | succ d =>
    show byteRun1Go (rest.length + 1) (code :: rest) (d + 1) = _
    simp only [byteRun1Go, if_pos h1, if_pos h2]

/-- A literal run longer than the remaining source is a short read and fails. -/
theorem byteRun1_literalShortRead (code : Nat) (rest : List Nat) (d : Nat)
    (h1 : code ≤ 127) (h2 : code + 1 ≤ d) (h3 : rest.length < code + 1) :
    decompressByteRun1 (code :: rest) d = none := by
  cases d with
  | zero => omega
  | succ d =>
    show byteRun1Go (rest.length + 1) (code :: rest) (d + 1) = _
    simp only [byteRun1Go, if_pos h1, if_neg (by omega : ¬d + 1 < code + 1), if_pos h3]

/-- Control byte 128 is a no-op: decoding continues with the next control
byte and the same remaining destination length. -/
theorem byteRun1_noop128 (rest : List Nat) (d : Nat) (hd : 0 < d) :
    decompressByteRun1 (128 :: rest) d = decompressByteRun1 rest d := by
  cases d with
  | zero => omega
  | succ d =>
    show byteRun1Go (rest.length + 1) (128 :: rest) (d + 1) = _
    simp only [byteRun1Go, if_neg (by omega : ¬(128 : Nat) ≤ 127), if_pos rfl]
    rfl

/-- Control byte 129..255 reads one byte and writes it (256-code)+1 times,
then continues on the rest of the destination. -/
theorem byteRun1_repeat (code v : Nat) (rest2 : List Nat) (d : Nat)
    (h1 : 129 ≤ code) (h2 : code ≤ 255) (h3 : (256 - code) + 1 ≤ d) :
    decompressByteRun1 (code :: v :: rest2) d =
      (decompressByteRun1 rest2 (d - ((256 - code) + 1))).map
        (fun p => (List.replicate ((256 - code) + 1) v ++ p.1, p.2)) := by
  cases d with
  | zero => omega
  | succ d =>
    show byteRun1Go (rest2.length + 2) (code :: v :: rest2) (d + 1) = _
    simp only [byteRun1Go, if_neg (by omega : ¬code ≤ 127), if_neg (by omega : ¬code = 128),
      if_neg (by omega : ¬d + 1 < 256 - code + 1)]
    rw [byteRun1Go_fuel (rest2.length + 1) rest2.length rest2
      (d + 1 - (256 - code + 1)) (by omega) (le_refl _)]
    show (match decompressByteRun1 rest2 (d + 1 - (256 - code + 1)) with
      | none => none
      | some (out, rem) => some (List.replicate (256 - code + 1) v ++ out, rem)) = _
    cases decompressByteRun1 rest2 (d + 1 - (256 - code + 1)) with
    | none => rfl
    | some p => cases p; rfl

/-- A repeat run longer than the remaining destination space fails. -/
theorem byteRun1_repeatOverflow (code : Nat) (rest : List Nat) (d : Nat)
    (h1 : 129 ≤ code) (h2 : code ≤ 255) (hd : 0 < d) (h3 : d < (256 - code) + 1) :
    decompressByteRun1 (code :: rest) d = none := by
  cases d with
  | zero => omega
  | succ d =>
    show byteRun1Go (rest.length + 1) (code :: rest) (d + 1) = _
    simp only [byteRun1Go, if_neg (by omega : ¬code ≤ 127), if_neg (by omega : ¬code = 128),
      if_pos (by omega : d + 1 < 256 - code + 1)]

/-- A repeat control byte with no value byte behind it is a short read
and fails. -/
theorem byteRun1_repeatShortRead (code : Nat) (d : Nat)
    (h1 : 129 ≤ code) (h2 : code ≤ 255) (h3 : (256 - code) + 1 ≤ d) :
    decompressByteRun1 [code] d = none := by
  cases d with
  | zero => omega
  | succ d =>
    show byteRun1Go 1 [code] (d + 1) = _
    simp only [byteRun1Go, if_neg (by omega : ¬code ≤ 127), if_neg (by omega : ¬code = 128),
      if_neg (by omega : ¬d + 1 < 256 - code + 1)]

/-- C1.  The run-length codec `DecompressByteRun1` decodes one control
byte at a time: control value 0-127 copies the next value+1 literal bytes,
value 128 is a no-op, and value 129-255 reads one byte and repeats it
(256-value)+1 times; decoding stops once `destLen` bytes have been
produced (a successful result has exactly `destLen` bytes), a control code
whose expansion would exceed `destLen` fails, and a short source read
fails.  The golden input of control byte 0x02 followed by 3 literal bytes
and control byte 0xFE followed by one byte decodes to exactly those 3
literal bytes followed by 3 copies of the repeated byte. -/
theorem c1_byteRun1_control_semantics :
    (∀ src : List Nat, decompressByteRun1 src 0 = some ([], src)) ∧
    (∀ d : Nat, 0 < d → decompressByteRun1 [] d = none) ∧
    (∀ (code : Nat) (rest : List Nat) (d : Nat), code ≤ 127 → code + 1 ≤ d →
      ¬rest.length < code + 1 →
      decompressByteRun1 (code :: rest) d =
        (decompressByteRun1 (rest.drop (code + 1)) (d - (code + 1))).map
          (fun p => (rest.take (code + 1) ++ p.1, p.2))) ∧
    (∀ (code : Nat) (rest : List Nat) (d : Nat), code ≤ 127 → 0 < d → d < code + 1 →
      decompressByteRun1 (code :: rest) d = none) ∧
    (∀ (code : Nat) (rest : List Nat) (d : Nat), code ≤ 127 → code + 1 ≤ d →
      rest.length < code + 1 → decompressByteRun1 (code :: rest) d = none) ∧
    (∀ (rest : List Nat) (d : Nat), 0 < d →
      decompressByteRun1 (128 :: rest) d = decompressByteRun1 rest d) ∧
    (∀ (code v : Nat) (rest2 : List Nat) (d : Nat), 129 ≤ code → code ≤ 255 →
      (256 - code) + 1 ≤ d →
      decompressByteRun1 (code :: v :: rest2) d =
        (decompressByteRun1 rest2 (d - ((256 - code) + 1))).map
          (fun p => (List.replicate ((256 - code) + 1) v ++ p.1, p.2))) ∧
    (∀ (code : Nat) (rest : List Nat) (d : Nat), 129 ≤ code → code ≤ 255 → 0 < d →
      d < (256 - code) + 1 → decompressByteRun1 (code :: rest) d = none) ∧
    (∀ (code : Nat) (d : Nat), 129 ≤ code → code ≤ 255 → (256 - code) + 1 ≤ d →
      decompressByteRun1 [code] d = none) ∧
    (∀ (src : List Nat) (d : Nat) (out rem : List Nat),
      decompressByteRun1 src d = some (out, rem) → out.length = d) ∧
    decompressByteRun1 [0x02, 10, 20, 30, 0xFE, 99] 6 = some ([10, 20, 30, 99, 99, 99], []) :=
  ⟨byteRun1_destZero, byteRun1_truncatedEmpty, byteRun1_literal, byteRun1_literalOverflow,
   byteRun1_literalShortRead, byteRun1_noop128, byteRun1_repeat, byteRun1_repeatOverflow,
   byteRun1_repeatShortRead, fun src d => byteRun1Go_length src.length src d, rfl⟩

/-- Witness for C1 at concrete inputs: the no-op, literal and repeat
clauses applied to the golden vector. -/
theorem c1_byteRun1_control_semantics_witness :
    decompressByteRun1 [128, 0x02, 10, 20, 30, 0xFE, 99] 6 =
      decompressByteRun1 [0x02, 10, 20, 30, 0xFE, 99] 6 ∧
    decompressByteRun1 [0x02, 10, 20, 30, 0xFE, 99] 6 = some ([10, 20, 30, 99, 99, 99], []) :=
  ⟨c1_byteRun1_control_semantics.2.2.2.2.2.1 [0x02, 10, 20, 30, 0xFE, 99] 6 (by norm_num),
   c1_byteRun1_control_semantics.2.2.2.2.2.2.2.2.2.2⟩

/-! ## Fax bitstream (`FaxBitstream`, `ReadFaxBit`, image_decoder.c:44-93)

The C reader pulls bytes from the IFF stream lazily and hands out bits
MSB-first; `bitPos % 8 == 0` exactly when the total number of consumed
bits is a multiple of 8.  The model keeps the not-yet-consumed bits and
the count of consumed bits (which carries the byte-alignment state). -/
structure FaxBS where
  bits : List Bool
  consumed : Nat
deriving DecidableEq

/-- Bits of one byte, MSB first, as extracted by `ReadFaxBit`. -/
def byteBits (b : Nat) : List Bool :=
  (List.range 8).map (fun i => b / 2 ^ (7 - i) % 2 = 1)

/-- Bit sequence of a byte stream, MSB first within each byte. -/
def bytesToBits (bs : List Nat) : List Bool :=
  (bs.map byteBits).flatten

/-- `ReadFaxBit`: the next bit and the advanced stream, or `none` at end
of data. -/
def readFaxBit : FaxBS → Option (Bool × FaxBS)
  | ⟨[], _⟩ => none
  | ⟨b :: r, k⟩ => some (b, ⟨r, k + 1⟩)

/-- The byte-alignment loop after an EOL match (image_decoder.c:134-140):
consume bits until the consumed count is a multiple of 8, stopping early
at end of data. -/
def alignToByte : List Bool → Nat → List Bool × Nat
  | [], k => ([], k)
  | b :: r, k => if k % 8 = 0 then (b :: r, k) else alignToByte r (k + 1)

/-- Loop body of `SkipToEOL` (image_decoder.c:103-155): count consecutive
zero bits; when the count reaches 11, read one more bit - a one bit is the
EOL marker (then align to the byte boundary), while a zero bit resets the
counter to zero and scanning continues.  Any one bit before the count
reaches 11 also resets the counter.  End of data yields `none`. -/
def skipToEOLAux : Nat → List Bool → Nat → Option (List Bool × Nat)
  | _, [], _ => none
  | _, true :: r, k => skipToEOLAux 0 r (k + 1)
  | cz, false :: r, k =>
    if cz + 1 = 11 then
      match r with
      | [] => none
      | true :: r2 => some (alignToByte r2 (k + 2))
      | false :: r2 => skipToEOLAux 0 r2 (k + 2)
    else skipToEOLAux (cz + 1) r (k + 1)

/-- `SkipToEOL`: scan for the end-of-line marker and byte-align behind it. -/
def skipToEOL (bs : FaxBS) : Option FaxBS :=
  match skipToEOLAux 0 bs.bits bs.consumed with
  | none => none
  | some (b, k) => some ⟨b, k⟩

/-- C5.  Behaviour of `SkipToEOL` on end-of-line markers.  A marker of
exactly eleven zero bits followed by a one bit is found, and the trailing
fill bits up to the next byte boundary are consumed after the match (the
stream `0x00 0x10` leaves the cursor at bit 16).  However, when the
eleven zeros are preceded by one additional zero fill bit - the
byte-aligned encoding `0x00 0x01`, fifteen zeros followed by a one - the
scan consumes the twelfth zero as the post-counter check bit, resets the
zero counter, and never finds the marker: the call fails instead of
locating the EOL, refuting the claim that preceding zero fill bits are
handled. -/
theorem c5_skipToEOL_zero_fill :
    bytesToBits [0x00, 0x10] =
      List.replicate 11 false ++ [true] ++ List.replicate 4 false ∧
    skipToEOL ⟨bytesToBits [0x00, 0x10], 0⟩ = some ⟨[], 16⟩ ∧
    bytesToBits [0x00, 0x01] = List.replicate 15 false ++ [true] ∧
    skipToEOL ⟨bytesToBits [0x00, 0x01], 0⟩ = none := by
  refine ⟨by decide, by decide, by decide, by decide⟩

/-! ## ITU-T T.4 Modified Huffman code tables (image_decoder.c:157-222)

Each entry is (code, bits, run), in the order of the C arrays. -/

/-- White terminating codes for runs 0-63 (`mh_white_codes`). -/
def mh_white_codes : List (Nat × Nat × Nat) :=
  [(0x35, 8, 0), (0x07, 6, 1), (0x07, 4, 2), (0x08, 4, 3), (0x0b, 4, 4), (0x0c, 4, 5),
   (0x0e, 4, 6), (0x0f, 4, 7), (0x13, 5, 8), (0x14, 5, 9), (0x07, 5, 10), (0x08, 5, 11),
   (0x08, 6, 12), (0x03, 6, 13), (0x34, 6, 14), (0x35, 6, 15), (0x2a, 6, 16), (0x2b, 6, 17),
   (0x27, 7, 18), (0x0c, 7, 19), (0x08, 7, 20), (0x17, 7, 21), (0x03, 7, 22), (0x04, 7, 23),
   (0x28, 7, 24), (0x2b, 7, 25), (0x13, 7, 26), (0x24, 7, 27), (0x18, 7, 28), (0x02, 8, 29),
   (0x03, 8, 30), (0x1a, 8, 31), (0x1b, 8, 32), (0x12, 8, 33), (0x13, 8, 34), (0x14, 8, 35),
   (0x15, 8, 36), (0x16, 8, 37), (0x17, 8, 38), (0x28, 8, 39), (0x29, 8, 40), (0x2a, 8, 41),
   (0x2b, 8, 42), (0x2c, 8, 43), (0x2d, 8, 44), (0x04, 8, 45), (0x05, 8, 46), (0x0a, 8, 47),
   (0x0b, 8, 48), (0x52, 8, 49), (0x53, 8, 50), (0x54, 8, 51), (0x55, 8, 52), (0x24, 8, 53),
   (0x25, 8, 54), (0x58, 8, 55), (0x59, 8, 56), (0x5a, 8, 57), (0x5b, 8, 58), (0x4a, 8, 59),
   (0x4b, 8, 60), (0x32, 8, 61), (0x33, 8, 62), (0x34, 8, 63)]

/-- Black terminating codes for runs 0-63 (`mh_black_codes`). -/
def mh_black_codes : List (Nat × Nat × Nat) :=
  [(0x037, 10, 0), (0x002, 3, 1), (0x003, 2, 2), (0x002, 2, 3), (0x003, 3, 4), (0x003, 4, 5),
   (0x002, 4, 6), (0x003, 5, 7), (0x005, 6, 8), (0x004, 6, 9), (0x004, 7, 10), (0x005, 7, 11),
   (0x007, 7, 12), (0x004, 8, 13), (0x007, 8, 14), (0x018, 9, 15), (0x017, 10, 16), (0x018, 10, 17),
   (0x008, 10, 18), (0x067, 11, 19), (0x068, 11, 20), (0x06c, 11, 21), (0x037, 11, 22), (0x028, 11, 23),
   (0x017, 11, 24), (0x018, 11, 25), (0x0ca, 12, 26), (0x0cb, 12, 27), (0x0cc, 12, 28), (0x0cd, 12, 29),
   (0x068, 12, 30), (0x069, 12, 31), (0x06a, 12, 32), (0x06b, 12, 33), (0x0d2, 12, 34), (0x0d3, 12, 35),
   (0x0d4, 12, 36), (0x0d5, 12, 37), (0x0d6, 12, 38), (0x0d7, 12, 39), (0x06c, 12, 40), (0x06d, 12, 41),
   (0x0da, 12, 42), (0x0db, 12, 43), (0x054, 12, 44), (0x055, 12, 45), (0x056, 12, 46), (0x057, 12, 47),
   (0x064, 12, 48), (0x065, 12, 49), (0x052, 12, 50), (0x053, 12, 51), (0x024, 12, 52), (0x037, 12, 53),
   (0x038, 12, 54), (0x027, 12, 55), (0x028, 12, 56), (0x058, 12, 57), (0x059, 12, 58), (0x02b, 12, 59),
   (0x02c, 12, 60), (0x05a, 12, 61), (0x066, 12, 62), (0x067, 12, 63)]

/-- Make-up codes for runs that are multiples of 64, up to 2560, shared
between white and black (`mh_makeup_codes`). -/
def mh_makeup_codes : List (Nat × Nat × Nat) :=
  [(0x01b, 5, 64), (0x012, 5, 128), (0x017, 6, 192), (0x037, 7, 256), (0x036, 8, 320),
   (0x037, 8, 384), (0x064, 8, 448), (0x065, 8, 512), (0x068, 8, 576), (0x067, 8, 640),
   (0x0cc, 9, 704), (0x0cd, 9, 768), (0x0d2, 9, 832), (0x0d3, 9, 896), (0x0d4, 9, 960),
   (0x0d5, 9, 1024), (0x0d6, 9, 1088), (0x0d7, 9, 1152), (0x0d8, 9, 1216), (0x0d9, 9, 1280),
   (0x0da, 9, 1344), (0x0db, 9, 1408), (0x098, 9, 1472), (0x099, 9, 1536), (0x09a, 9, 1600),
   (0x018, 6, 1664), (0x09b, 9, 1728), (0x008, 11, 1792), (0x00c, 11, 1856), (0x00d, 11, 1920),
   (0x012, 12, 1984), (0x013, 12, 2048), (0x014, 12, 2112), (0x015, 12, 2176), (0x016, 12, 2240),
   (0x017, 12, 2304), (0x01c, 12, 2368), (0x01d, 12, 2432), (0x01e, 12, 2496), (0x01f, 12, 2560)]

/-- First table entry whose bit length is `k` and whose code masked to
`k` bits equals `code` (the inner scans of `DecodeMHRun`,
image_decoder.c:276-297). -/
def findCode : List (Nat × Nat × Nat) → Nat → Nat → Option Nat
  | [], _, _ => none
  | (c, b, r) :: rest, k, code =>
    if b = k ∧ Nat.land c (2 ^ k - 1) = code then some r else findCode rest k code

/-- Result of assembling one prefix code in `DecodeMHRun`: a make-up
match, a terminating match, or failure (end of data or 13 bits without a
match), each with the stream state after the consumed bits. -/
inductive MHCode where
  | makeup (run : Nat) (bs : FaxBS)
  | terminal (run : Nat) (bs : FaxBS)
  | err (bs : FaxBS)
deriving DecidableEq

/-- Inner loop of `DecodeMHRun` (image_decoder.c:261-299): read bits one
at a time (at most 13), extend the code, and match it against the shared
make-up table first and then the terminating table for the current color. -/
def mhReadCode (term : List (Nat × Nat × Nat)) : Nat → Nat → Nat → FaxBS → MHCode
  | 0, _, _, bs => .err bs
  | fuel + 1, code, bitsRead, bs =>
    match readFaxBit bs with
    | none => .err bs
    | some (bit, bs1) =>
      let code1 := code * 2 + (if bit then 1 else 0)
      let k := bitsRead + 1
      match findCode mh_makeup_codes k code1 with
      | some r => .makeup r bs1
      | none =>
        match findCode term k code1 with
        | some r => .terminal r bs1
        | none => mhReadCode term fuel code1 k bs1

/-- A make-up match consumed at least one bit of the stream. -/
theorem mhReadCode_makeup_lt (term : List (Nat × Nat × Nat)) :
    ∀ (fuel code bitsRead : Nat) (bs : FaxBS) (r : Nat) (bs2 : FaxBS),
      mhReadCode term fuel code bitsRead bs = .makeup r bs2 →
      bs2.bits.length < bs.bits.length := by
  intro fuel
  induction fuel with
  | zero => intro code bitsRead bs r bs2 h; cases h
  | succ fuel ih =>
    intro code bitsRead bs r bs2 h
    obtain ⟨bits, k⟩ := bs
    cases bits with
    | nil => cases h
    | cons b rest =>
      simp only [mhReadCode, readFaxBit] at h
      cases hm : findCode mh_makeup_codes (bitsRead + 1) (code * 2 + if b then 1 else 0) with
      | some r2 =>
        rw [hm] at h
        cases h
        simp
      | none =>
        rw [hm] at h
        cases ht : findCode term (bitsRead + 1) (code * 2 + if b then 1 else 0) with
        | some r2 => rw [ht] at h; cases h
        | none =>
          rw [ht] at h
          have := ih _ _ _ _ _ h
          simp only [List.length_cons] at this ⊢
          omega

/-- Outer loop of `DecodeMHRun` (image_decoder.c:255-313): make-up runs
accumulate and matching continues; a terminating run is added and the
total returned; failure with a positive accumulated total returns that
total, otherwise it is an error.  The fuel bounds the number of chained
make-up codes; since each one consumes at least one bit, the stream
length is a sufficient fuel. -/
def mhRunGo (isWhite : Bool) : Nat → FaxBS → Nat → Option Nat × FaxBS
  | 0, bs, totalRun => (if 0 < totalRun then some totalRun else none, bs)
  | fuel + 1, bs, totalRun =>
    let term := if isWhite then mh_white_codes else mh_black_codes
    match mhReadCode term 13 0 0 bs with
    | .err bs2 => (if 0 < totalRun then some totalRun else none, bs2)
    | .terminal r bs2 => (some (totalRun + r), bs2)
    | .makeup r bs2 => mhRunGo isWhite fuel bs2 (totalRun + r)

/-- `DecodeMHRun`: decode one run length, `none` standing for the C
return value -1.  The stream length bounds the possible make-up chain. -/
def decodeMHRun (isWhite : Bool) (bs : FaxBS) : Option Nat × FaxBS :=
  mhRunGo isWhite (bs.bits.length + 1) bs 0

/-- The result of `mhRunGo` does not depend on the fuel once the fuel
exceeds the stream length (each chained make-up code consumes at least
one bit). -/
theorem mhRunGo_fuel (isWhite : Bool) (f : Nat) :
    ∀ (g : Nat) (bs : FaxBS) (totalRun : Nat), bs.bits.length < f → bs.bits.length < g →
      mhRunGo isWhite f bs totalRun = mhRunGo isWhite g bs totalRun := by
  induction f with
  | zero => intro g bs totalRun hf hg; omega
  | succ f ih =>
    intro g bs totalRun hf hg
    cases g with
    | zero => omega
    | succ g =>
      simp only [mhRunGo]
      cases hm : mhReadCode (if isWhite then mh_white_codes else mh_black_codes) 13 0 0 bs with
      | err bs2 => rfl
      | terminal r bs2 => rfl
      | makeup r bs2 =>
        have hlt := mhReadCode_makeup_lt _ _ _ _ _ _ _ hm
        exact ih g bs2 (totalRun + r) (by omega) (by omega)

/-- C6.  `DecodeMHRun` assembles a run by matching the shared make-up
table first (all of whose runs are multiples of 64, up to 2560),
accumulating every matched make-up run and continuing to match, until a
terminating code (run 0-63, separate white and black tables) matches,
whose value is added and the total returned.  In particular the white
run 1741 decodes from makeup(1728) = 010011011 followed by
terminal(13) = 000011, and make-up codes chain: 64+64+2 decodes from
makeup(64) makeup(64) terminal(2). -/
theorem c6_decodeMHRun_makeup_chaining :
    (∀ e ∈ mh_makeup_codes, 64 ∣ e.2.2 ∧ 64 ≤ e.2.2 ∧ e.2.2 ≤ 2560) ∧
    (∀ e ∈ mh_white_codes, e.2.2 ≤ 63) ∧
    (∀ e ∈ mh_black_codes, e.2.2 ≤ 63) ∧
    mhReadCode mh_white_codes 13 0 0
        ⟨[false, true, false, false, true, true, false, true, true,
          false, false, false, false, true, true], 0⟩ =
      .makeup 1728 ⟨[false, false, false, false, true, true], 9⟩ ∧
    mhReadCode mh_white_codes 13 0 0 ⟨[false, false, false, false, true, true], 9⟩ =
      .terminal 13 ⟨[], 15⟩ ∧
    decodeMHRun true
        ⟨[false, true, false, false, true, true, false, true, true,
          false, false, false, false, true, true], 0⟩ =
      (some 1741, ⟨[], 15⟩) ∧
    decodeMHRun true
        ⟨[true, true, false, true, true, true, true, false, true, true,
          false, true, true, true], 0⟩ =
      (some 130, ⟨[], 14⟩) := by
  refine ⟨by decide, by decide, by decide, by decide, by decide, by decide, by decide⟩

/-- Pixel value of the currently filling color in the fax line decoders:
0 for white, 1 for black. -/
def colorOf (isWhite : Bool) : Nat := if isWhite then 0 else 1

/-- Loop of `DecodeMHLine` (image_decoder.c:322-387): decode alternating
runs of the current color, starting with white; a failed run decode fills
the rest of the line with the current color; a decoded run is clamped to
the remaining width; the loop also stops after `width*2` runs (`maxRuns`,
a UWORD in C) and pads the remainder with the current color.  `runsLeft`
counts down from `maxRuns`. -/
def mhLineGo : Bool → Nat → Nat → FaxBS → List Nat × FaxBS
  | _, _, 0, bs => ([], bs)
  | isWhite, 0, remaining + 1, bs => (List.replicate (remaining + 1) (colorOf isWhite), bs)
  | isWhite, runsLeft + 1, remaining + 1, bs =>
    match decodeMHRun isWhite bs with
    | (none, bs2) => (List.replicate (remaining + 1) (colorOf isWhite), bs2)
    | (some run, bs2) =>
      let run2 := min run (remaining + 1)
      let p := mhLineGo (!isWhite) runsLeft (remaining + 1 - run2) bs2
      (List.replicate run2 (colorOf isWhite) ++ p.1, p.2)

/-- `DecodeMHLine`: decode one scanline of `width` pixel values (0 white,
1 black).  Never fails; `maxRuns` is `width * 2` truncated to a UWORD. -/
def decodeMHLine (bs : FaxBS) (width : Nat) : List Nat × FaxBS :=
  mhLineGo true (width * 2 % 65536) width bs

/-- A decoded Modified Huffman line always has exactly the requested
number of pixels. -/
theorem mhLineGo_length : ∀ (runsLeft : Nat) (isWhite : Bool) (remaining : Nat) (bs : FaxBS),
    (mhLineGo isWhite runsLeft remaining bs).1.length = remaining := by
  intro runsLeft
  induction runsLeft with
  | zero =>
    intro isWhite remaining bs
    cases remaining with
    | zero => rfl
    | succ rem => simp [mhLineGo]
  | succ runsLeft ih =>
    intro isWhite remaining bs
    cases remaining with
    | zero => rfl
    | succ rem =>
      simp only [mhLineGo]
      cases h : decodeMHRun isWhite bs with
      | mk runOpt bs2 =>
        cases runOpt with
        | none => simp
        | some run =>
          simp only [List.length_append, List.length_replicate, ih]
          omega

/-- The row loop of the Modified-Huffman branch of `DecodeFAXX`
(image_decoder.c:2116-2167) for all scanlines after the first: each
iteration first scans for the EOL marker; when that scan hits the end of
the data, all remaining scanlines are filled with the white palette index
0 and the loop ends successfully; otherwise the line is decoded (which
never fails) and the loop continues. -/
def faxxMHRest (width : Nat) : Nat → FaxBS → List (List Nat)
  | 0, _ => []
  | n + 1, bs =>
    match skipToEOL bs with
    | none => List.replicate (n + 1) (List.replicate width 0)
    | some bs1 =>
      let p := decodeMHLine bs1 width
      p.1 :: faxxMHRest width n p.2

/-- The Modified-Huffman branch of `DecodeFAXX` (image_decoder.c:2091-2169)
at the palette-index level: scan for the initial EOL (failure there fails
the whole decode with `IFFPICTURE_BADFILE`), then decode the first line
and run the row loop for the remaining lines.  The result is the list of
scanline palette-index rows. -/
def decodeFAXX_MH (bytes : List Nat) (width height : Nat) : Option (List (List Nat)) :=
  match skipToEOL ⟨bytesToBits bytes, 0⟩ with
  | none => none
  | some bs1 =>
    match height with
    | 0 => some []
    | h + 1 =>
      let p := decodeMHLine bs1 width
      some (p.1 :: faxxMHRest width h p.2)

/-- The row loop always produces one row per remaining scanline. -/
theorem faxxMHRest_length (width : Nat) : ∀ (n : Nat) (bs : FaxBS),
    (faxxMHRest width n bs).length = n := by
  intro n
  induction n with
  | zero => intro bs; rfl
  | succ n ih =>
    intro bs
    simp only [faxxMHRest]
    cases skipToEOL bs with
    | none => simp
    | some bs1 => simp [ih]

/-- Every row the row loop produces has exactly `width` pixels. -/
theorem faxxMHRest_row_length (width : Nat) : ∀ (n : Nat) (bs : FaxBS),
    ∀ r ∈ faxxMHRest width n bs, r.length = width := by
  intro n
  induction n with
  | zero => intro bs r hr; cases hr
  | succ n ih =>
    intro bs r hr
    simp only [faxxMHRest] at hr
    split at hr
    · rw [List.eq_of_mem_replicate hr]
      exact List.length_replicate _ _
    · cases hr with
      | head => exact mhLineGo_length _ _ _ _
      | tail _ hmem => exact ih _ r hmem

/-- C4 counterexample.  A Modified-Huffman compressed fax whose bitstream
is empty is exhausted before any of its scanlines is produced, yet
`DecodeFAXX` fails (`FAXX: Failed to find initial EOL`) instead of
producing white scanlines and returning success as the claim demands. -/
theorem c4_faxx_empty_stream_fails : decodeFAXX_MH [] 1 1 = none := by decide

/-- C4 as amended.  In the Modified-Huffman branch of `DecodeFAXX`:
exhaustion of the bitstream while scanning for the initial EOL marker
fails the decode, and that is the only failure (the decode succeeds if
and only if the initial EOL scan succeeds); a successful decode produces
all `height` scanlines of `width` pixels each; and when the bitstream is
exhausted at any later end-of-line scan, every remaining scanline is
filled with white (palette index 0) and the decode still succeeds. -/
theorem c4_faxx_exhaustion_after_initial_EOL :
    (∀ (bytes : List Nat) (w h : Nat),
      (decodeFAXX_MH bytes w h).isSome ↔ (skipToEOL ⟨bytesToBits bytes, 0⟩).isSome) ∧
    (∀ (bytes : List Nat) (w h : Nat) (rows : List (List Nat)),
      decodeFAXX_MH bytes w h = some rows →
        rows.length = h ∧ ∀ r ∈ rows, r.length = w) ∧
    (∀ (w n : Nat) (bs : FaxBS), skipToEOL bs = none →
      faxxMHRest w n bs = List.replicate n (List.replicate w 0)) := by
  refine ⟨?_, ?_, ?_⟩
  · intro bytes w h
    unfold decodeFAXX_MH
    cases skipToEOL ⟨bytesToBits bytes, 0⟩ with
    | none => simp
    | some bs1 => cases h <;> simp
  · intro bytes w h rows hrows
    unfold decodeFAXX_MH at hrows
    cases hskip : skipToEOL ⟨bytesToBits bytes, 0⟩ with
    | none => rw [hskip] at hrows; cases hrows
    | some bs1 =>
      rw [hskip] at hrows
      cases h with
      | zero =>
        cases hrows
        exact ⟨rfl, fun r hr => absurd hr (List.not_mem_nil r)⟩
      | succ h =>
        simp only at hrows
        cases hrows
        constructor
        · simp [faxxMHRest_length]
        · intro r hr
          cases hr with
          | head => exact mhLineGo_length _ _ _ _
          | tail _ hmem => exact faxxMHRest_row_length w h _ r hmem
  · intro w n bs hskip
    cases n with
    | zero => rfl
    | succ n => simp only [faxxMHRest, hskip]

/-- Witness for C4 as amended: a stream whose only content is a single
EOL marker decodes a 1x2 fax image to two all-white scanlines. -/
theorem c4_faxx_exhaustion_witness :
    decodeFAXX_MH [0x00, 0x10] 1 2 = some [[0], [0]] ∧
    ([[0], [0]] : List (List Nat)).length = 2 ∧ (∀ r ∈ [[0], [0]], r.length = 1) ∧
    faxxMHRest 1 1 ⟨[], 16⟩ = List.replicate 1 (List.replicate 1 0) := by
  have h := c4_faxx_exhaustion_after_initial_EOL.2.1 [0x00, 0x10] 1 2 [[0], [0]] (by decide)
  have h2 := c4_faxx_exhaustion_after_initial_EOL.2.2 1 1 ⟨[], 16⟩ (by decide)
  exact ⟨by decide, h.1, h.2, h2⟩

/-! ## Modified READ (2D) line decoder (image_decoder.c:27-41, 395-425, 442-657) -/

/-- MR opcodes, with the numeric values of the C defines. -/
def OP_P : Int := -5

/-- Horizontal mode opcode. -/
def OP_H : Int := -6

/-- Vertical mode, reference offset +3. -/
def OP_VR3 : Int := -7

/-- Vertical mode, reference offset +2. -/
def OP_VR2 : Int := -8

/-- Vertical mode, reference offset +1. -/
def OP_VR1 : Int := -9

/-- Vertical mode, zero offset. -/
def OP_V : Int := -10

/-- Vertical mode, reference offset -1. -/
def OP_VL1 : Int := -11

/-- Vertical mode, reference offset -2. -/
def OP_VL2 : Int := -12

/-- Vertical mode, reference offset -3. -/
def OP_VL3 : Int := -13

/-- Scan loop shared by the changing-element searches: from `pos`, the
first position below `width` whose line value differs from `color`, else
`width`.  The fuel `width - pos` covers the whole scan range. -/
def findNCEGo (line : List Nat) (width color : Nat) : Nat → Nat → Nat
  | 0, _ => width
  | fuel + 1, pos =>
    if pos < width then
      if line.getD pos 0 ≠ color then pos else findNCEGo line width color fuel (pos + 1)
    else width

/-- `FindNextChangingElement` (image_decoder.c:395-404): first position at
or after `a0` whose value differs from `color`, else `width`. -/
def findNextChangingElement (line : List Nat) (width a0 color : Nat) : Nat :=
  findNCEGo line width color (width - a0) a0

/-- `FindNextChangingElementAny` (image_decoder.c:411-425): first position
strictly after `a0` whose value differs from the value at `a0`, else
`width`. -/
def findNextChangingElementAny (line : List Nat) (width a0 : Nat) : Nat :=
  if a0 ≥ width then width
  else findNCEGo line width (line.getD a0 0) (width - (a0 + 1)) (a0 + 1)

/-- `DecodeMROpcode` (image_decoder.c:442-504): read 1 to 7 bits and
return the matching opcode, or `none` on end of data or an unknown code. -/
def decodeMROpcode : FaxBS → Option (Int × FaxBS)
  | ⟨true :: r, c⟩ => some (OP_V, ⟨r, c + 1⟩)
  | ⟨false :: b2 :: b3 :: rest, c⟩ =>
    if b2 = false ∧ b3 = true then some (OP_H, ⟨rest, c + 3⟩)
    else if b2 = true ∧ b3 = true then some (OP_VR1, ⟨rest, c + 3⟩)
    else if b2 = true ∧ b3 = false then some (OP_VL1, ⟨rest, c + 3⟩)
    else
      match rest with
      | true :: r4 => some (OP_P, ⟨r4, c + 4⟩)
      | false :: b5 :: b6 :: r6 =>
        if b5 = true ∧ b6 = true then some (OP_VR2, ⟨r6, c + 6⟩)
        else if b5 = true ∧ b6 = false then some (OP_VL2, ⟨r6, c + 6⟩)
        else
          match r6 with
          | b7 :: r7 =>
            if b6 = true ∧ b7 = true then some (OP_VR3, ⟨r7, c + 7⟩)
            else if b6 = true ∧ b7 = false then some (OP_VL3, ⟨r7, c + 7⟩)
            else none
          | [] => none
      | _ => none
  | _ => none

/-- Main loop of `DecodeMRLine` (image_decoder.c:546-624).  Each
iteration computes `b1` by `FindNextChangingElement(refLine, width, a0,
isWhite ? 1 : 0)` and `b2` as the next change after `b1`, reads an
opcode, and applies Pass, Horizontal or Vertical mode, collecting the
changing-element positions of the current line.  `a0` is a UWORD, so in
Horizontal mode `a0 += runLength` wraps modulo 65536 before the
`a0 > width` clamp (image_decoder.c:585-586, 595-596), and the Vertical
target `(UWORD)((LONG)b1 + delta)` likewise wraps before the clamp and
the underflow override.  Every iteration reads at least one opcode bit,
so the stream length bounds the iteration count and serves as fuel. -/
def mrLoopGo (refLine : List Nat) (width : Nat) :
    Nat → Nat → Bool → List Nat → FaxBS → Option (List Nat × FaxBS)
  | 0, _, _, _, _ => none
  | fuel + 1, a0, isWhite, curline, bs =>
    let b1 := findNextChangingElement refLine width a0 (if isWhite then 1 else 0)
    let b2 := if b1 < width then findNextChangingElementAny refLine width (b1 + 1) else width
    match decodeMROpcode bs with
    | none => none
    | some (op, bs1) =>
      if op = OP_P then
        if b2 ≥ width then some (curline, bs1)
        else mrLoopGo refLine width fuel b2 isWhite curline bs1
      else if op = OP_H then
        match decodeMHRun isWhite bs1 with
        | (none, _) => none
        | (some run1, bs2) =>
          let a1 := min ((a0 + run1) % 65536) width
          match decodeMHRun (!isWhite) bs2 with
          | (none, _) => none
          | (some run2, bs3) =>
            let a2 := min ((a1 + run2) % 65536) width
            if a2 < width then mrLoopGo refLine width fuel a2 isWhite (curline ++ [a1, a2]) bs3
            else some (curline ++ [a1, a2], bs3)
      else if OP_VL3 ≤ op ∧ op ≤ OP_VR3 then
        if b1 ≥ width then
          some (if a0 < width then curline ++ [width] else curline, bs1)
        else
          let t : Int := (b1 : Int) + (op - OP_V)
          let a1 : Nat := if t < 0 then 0 else min (t.toNat % 65536) width
          if a1 < width then mrLoopGo refLine width fuel a1 (!isWhite) (curline ++ [a1]) bs1
          else some (curline ++ [a1], bs1)
      else none

/-- Conversion of the collected changing-element positions to pixel values
(image_decoder.c:629-653): fill runs of alternating color, starting with
white (0), one run per recorded position; remaining pixels take the color
current after the last position. -/
def mrReconstruct (width : Nat) : List Nat → Nat → Nat → List Nat
  | [], pos, color => List.replicate (width - pos) color
  | p :: rest, pos, color =>
    let newPos := max pos (min p width)
    List.replicate (newPos - pos) color ++ mrReconstruct width rest newPos (1 - color)

/-- `DecodeMRLine`: decode one 2D-coded line of `width` pixel values
against the reference line, or `none` where the C code returns
`RETURN_FAIL`. -/
def decodeMRLine (bs : FaxBS) (refLine : List Nat) (width : Nat) : Option (List Nat × FaxBS) :=
  match mrLoopGo refLine width (bs.bits.length + 1) 0 true [] bs with
  | none => none
  | some (curline, bs1) => some (mrReconstruct width curline 0 0, bs1)

/-- C3.  In `DecodeMRLine`, with a reference line that is white up to
column 9 and black from column 10 (its single changing element, of color
black - opposite to the initial white fill color - is at column 10), the
first decoding step computes `b1 = 0`, not 10: the code searches for the
first reference pixel differing from the opposite color, i.e. a pixel
EQUAL to the current fill color, starting at the current position itself.
Consequently a line coded as three Vertical(0) opcodes (bits 111) decodes
to the color-inverse of the reference line instead of an exact copy: the
claimed b1 definition and the exact-copy semantics of Vertical(0) both
fail on this input. -/
theorem c3_mr_b1_and_vertical_zero :
    (List.replicate 10 0 ++ List.replicate 10 1 : List Nat).getD 9 0 = 0 ∧
    (List.replicate 10 0 ++ List.replicate 10 1 : List Nat).getD 10 0 = 1 ∧
    findNextChangingElement (List.replicate 10 0 ++ List.replicate 10 1) 20 0 1 = 0 ∧
    (0 : Nat) ≠ 10 ∧
    decodeMRLine ⟨[true, true, true], 0⟩ (List.replicate 10 0 ++ List.replicate 10 1) 20 =
      some (List.replicate 10 1 ++ List.replicate 10 0, ⟨[], 3⟩) ∧
    (List.replicate 10 1 ++ List.replicate 10 0 : List Nat) ≠
      List.replicate 10 0 ++ List.replicate 10 1 := by
  refine ⟨by decide, by decide, by decide, by decide, by decide, by decide⟩

/-! ## Palette lookup with index clamping

The clamp+lookup sequence appears verbatim in `DecodeILBM`
(image_decoder.c:881-902), `DecodeEHB` (1184-1202), `DecodePBM`
(1448-1466) and `DecodeACBM` (1925-1943): an index at or above
`numcolors` is replaced by `(UBYTE)(maxColors - 1)` (ULONG subtraction
truncated to a byte), the RGB triple is read from the palette at the
clamped index, and 4-bit palette entries are widened by `v |= v >> 4`. -/

/-- The clamp `if (pixelIndex >= maxColors) pixelIndex = (UBYTE)(maxColors - 1)`:
`numcolors` is a ULONG, so the subtraction wraps modulo 2^32 = 4294967296
and the result is truncated to a byte. -/
def clampIndex (idx numcolors : Nat) : Nat :=
  if numcolors ≤ idx then (numcolors + 4294967295) % 4294967296 % 256 else idx

/-- Widening of a 4-bit palette component (`v |= v >> 4`). -/
def scale4Bit (is4Bit : Bool) (v : Nat) : Nat :=
  if is4Bit then Nat.lor v (v >>> 4) else v

/-- Clamped palette lookup with optional 4-bit widening, shared by the
interleaved-plane, packed-pixel, Extra-Half-Brite and contiguous-plane
decoders. -/
def lookupRGB (cmap : List (Nat × Nat × Nat)) (is4Bit : Bool) (idx : Nat) : Nat × Nat × Nat :=
  let pi := clampIndex idx cmap.length
  let e := cmap.getD pi (0, 0, 0)
  (scale4Bit is4Bit e.1, scale4Bit is4Bit e.2.1, scale4Bit is4Bit e.2.2)

/-- Bit of a bit-packed plane row at pixel column `col`, MSB first within
each byte (`planeBuffer[col/8] & bit_mask[7 - col%8]`). -/
def getBit (buf : List Nat) (col : Nat) : Nat :=
  buf.getD (col / 8) 0 >>> (7 - col % 8) &&& 1

/-- Combination of one bit per plane into a pixel index
(`pixelIndices[col] |= (1 << plane)`, a UBYTE store, hence the
truncation modulo 256). -/
def planesToIndices (planes : List (List Nat)) (width : Nat) : List Nat :=
  (List.range width).map (fun col =>
    planes.enum.foldl
      (fun acc pe => if getBit pe.2 col = 1 then (acc ||| 1 <<< pe.1) % 256 else acc) 0)

/-- C10.  In the palette-lookup decoders an index at or above the
palette's entry count is clamped before the lookup.  Pixel indices are
byte values (below 256), and a palette, when present, has at least one
entry (`ReadCMAP` skips empty CMAP chunks, iffpicture.c:1198-1201), so
the clamped index is always below the entry count - the palette access
stays in bounds for every input.  For palettes of at most 256 entries
the clamp is exactly `numcolors - 1`, and `lookupRGB` (the shared
embedding of the four decoders' lookup sequence) reads the palette at
the clamped index. -/
theorem c10_clamped_palette_lookup :
    (∀ idx numcolors : Nat, idx < 256 → 1 ≤ numcolors →
      clampIndex idx numcolors < numcolors) ∧
    (∀ idx numcolors : Nat, 1 ≤ numcolors → numcolors ≤ 256 →
      clampIndex idx numcolors = if numcolors ≤ idx then numcolors - 1 else idx) ∧
    (∀ (cmap : List (Nat × Nat × Nat)) (is4Bit : Bool) (idx : Nat),
      lookupRGB cmap is4Bit idx =
        (scale4Bit is4Bit (cmap.getD (clampIndex idx cmap.length) (0, 0, 0)).1,
         scale4Bit is4Bit (cmap.getD (clampIndex idx cmap.length) (0, 0, 0)).2.1,
         scale4Bit is4Bit (cmap.getD (clampIndex idx cmap.length) (0, 0, 0)).2.2)) := by
  refine ⟨?_, ?_, ?_⟩
  · intro idx numcolors hidx hnc
    unfold clampIndex
    by_cases h : numcolors ≤ idx
    · rw [if_pos h]
      omega
    · rw [if_neg h]
      omega
  · intro idx numcolors h1 h2
    unfold clampIndex
    by_cases h : numcolors ≤ idx
    · rw [if_pos h, if_pos h]
      omega
    · rw [if_neg h, if_neg h]
  · intro cmap is4Bit idx
    rfl

/-- Witness for C10: index 40 against a 32-entry palette clamps to 31. -/
theorem c10_clamped_palette_lookup_witness :
    clampIndex 40 32 < 32 ∧ clampIndex 40 32 = 31 :=
  ⟨c10_clamped_palette_lookup.1 40 32 (by norm_num) (by norm_num), by decide⟩

/-! ## Extra-Half-Brite decoder (`DecodeEHB`, image_decoder.c:1101-1219) -/

/-- Per-pixel conversion of `DecodeEHB` (image_decoder.c:1184-1211): the
index is clamped, the RGB triple is looked up from the palette at the
clamped index (with 4-bit widening), and then, when the clamped index is
at least 32, every component is shifted right by one bit.  Note the
lookup uses the clamped index itself: the code never subtracts 32. -/
def decodeEHBPixel (cmap : List (Nat × Nat × Nat)) (is4Bit : Bool) (idx : Nat) : Nat × Nat × Nat :=
  let pi := clampIndex idx cmap.length
  let rgb := lookupRGB cmap is4Bit idx
  if 32 ≤ pi then (rgb.1 / 2, rgb.2.1 / 2, rgb.2.2 / 2) else rgb

/-- One scanline of `DecodeEHB`: plane rows (already read from the
stream) are combined into 0..63 indices, each mapped through
`decodeEHBPixel`. -/
def decodeEHBRow (cmap : List (Nat × Nat × Nat)) (is4Bit : Bool)
    (planes : List (List Nat)) (width : Nat) : List (Nat × Nat × Nat) :=
  (planesToIndices planes width).map (decodeEHBPixel cmap is4Bit)

/-- `DecodeEHB` at the row level: the decoder requires exactly 6 planes
(image_decoder.c:1126-1129) and maps every scanline through
`decodeEHBRow`. -/
def decodeEHBRows (cmap : List (Nat × Nat × Nat)) (is4Bit : Bool) (depth : Nat)
    (rows : List (List (List Nat))) (width : Nat) : Option (List (List (Nat × Nat × Nat))) :=
  if depth = 6 then some (rows.map (fun planes => decodeEHBRow cmap is4Bit planes width))
  else none

/-- A 64-entry test palette: entry 8 is (200,100,50), entry 40 is
(10,20,30), all other entries are black. -/
def cmap64 : List (Nat × Nat × Nat) :=
  (List.range 64).map (fun i =>
    if i = 8 then (200, 100, 50) else if i = 40 then (10, 20, 30) else (0, 0, 0))

/-- C3-style plane rows for a single EHB pixel of index 40 = 0b101000:
planes 3 and 5 carry a set leftmost bit. -/
def ehbPlanes40 : List (List Nat) :=
  [[0, 0], [0, 0], [0, 0], [128, 0], [0, 0], [128, 0]]

/-- C2.  `DecodeEHB` does require exactly 6 planes, but for indices 32-63
the code looks the RGB up at the CLAMPED INDEX ITSELF and then halves it;
it never maps through palette entry (index-32).  With a 64-entry palette
whose entry 8 is (200,100,50) and whose entry 40 is (10,20,30), the pixel
of index 40 decodes to (5,10,15) = entry 40 halved, not to (100,50,25) =
entry 8 halved as the claim - and the decoder's own comment
(image_decoder.c:1204) - state.  This also contradicts the claimed exact
behaviour for index 40. -/
theorem c2_ehb_no_index_fold :
    decodeEHBRows cmap64 false 5 [ehbPlanes40] 1 = none ∧
    decodeEHBRows cmap64 false 7 [ehbPlanes40] 1 = none ∧
    planesToIndices ehbPlanes40 1 = [40] ∧
    cmap64.getD 8 (0, 0, 0) = (200, 100, 50) ∧
    cmap64.getD 40 (0, 0, 0) = (10, 20, 30) ∧
    decodeEHBRows cmap64 false 6 [ehbPlanes40] 1 = some [[(5, 10, 15)]] ∧
    ((5, 10, 15) : Nat × Nat × Nat) ≠ (200 / 2, 100 / 2, 50 / 2) := by
  refine ⟨by decide, by decide, by decide, by decide, by decide, by decide, by decide⟩

/-! ## Hold-and-Modify decoder (`DecodeHAM`, image_decoder.c:934-1089) -/

/-- One HAM pixel (the switch at image_decoder.c:1041-1075): the top two
bits of the combined plane value select the mode.  Mode 0 (`HAMCODE_CMAP`)
looks the lower bits up in the palette (4-bit widening applied), falling
back to a grayscale value when there is no palette entry; modes 1/2/3
(`HAMCODE_BLUE`/`RED`/`GREEN`) replace the top `hambits` bits of the
blue/red/green component of the previous pixel with the lower bits,
keeping the other two components.  Component stores are UBYTE, hence the
truncation modulo 256. -/
def hamStep (cmap : List (Nat × Nat × Nat)) (is4Bit : Bool) (depth : Nat)
    (prev : Nat × Nat × Nat) (v : Nat) : Nat × Nat × Nat :=
  let hambits := depth - 2
  let hammask := 2 ^ hambits - 1
  let hamshift := 8 - hambits
  let hammask2 := 2 ^ hamshift - 1
  let hamCode := v >>> hambits &&& 3
  let hamIndex := v &&& hammask
  if hamCode = 0 then
    if hamIndex < cmap.length then
      let e := cmap.getD hamIndex (0, 0, 0)
      (scale4Bit is4Bit e.1, scale4Bit is4Bit e.2.1, scale4Bit is4Bit e.2.2)
    else
      let g := (hamIndex <<< hamshift ||| (hamIndex <<< hamshift) >>> hambits) % 256
      (g, g, g)
  else if hamCode = 1 then
    (prev.1, prev.2.1, (prev.2.2 &&& hammask2 ||| hamIndex <<< hamshift) % 256)
  else if hamCode = 2 then
    ((prev.1 &&& hammask2 ||| hamIndex <<< hamshift) % 256, prev.2.1, prev.2.2)
  else
    (prev.1, (prev.2.1 &&& hammask2 ||| hamIndex <<< hamshift) % 256, prev.2.2)

/-- One HAM scanline decoded left to right from the held state `prev`
(the inner column loop at image_decoder.c:1036-1082). -/
def decodeHAMRowFrom (cmap : List (Nat × Nat × Nat)) (is4Bit : Bool) (depth : Nat) :
    Nat × Nat × Nat → List Nat → List (Nat × Nat × Nat)
  | _, [] => []
  | prev, v :: rest =>
    let p := hamStep cmap is4Bit depth prev v
    p :: decodeHAMRowFrom cmap is4Bit depth p rest

/-- `DecodeHAM` at the image level: `r = g = b = 0` is re-established at
the start of every scanline (image_decoder.c:1035), so each row decodes
from the black held state. -/
def decodeHAMImage (cmap : List (Nat × Nat × Nat)) (is4Bit : Bool) (depth : Nat)
    (rows : List (List Nat)) : List (List (Nat × Nat × Nat)) :=
  rows.map (decodeHAMRowFrom cmap is4Bit depth (0, 0, 0))

/-- C7.  In `DecodeHAM` the held color state is reset to black at the
start of every scanline (each decoded row is the row decoded from the
black state, independent of the other rows), rows unfold pixel by pixel
through `hamStep` applied to the previous output pixel, and for every
pixel whose top two bits select modify-blue (1), modify-red (2) or
modify-green (3), the two non-replaced components of the output pixel are
exactly those of the previous output pixel. -/
theorem c7_ham_hold_and_reset :
    (∀ (cmap : List (Nat × Nat × Nat)) (is4Bit : Bool) (depth : Nat)
       (rows : List (List Nat)) (i : Nat),
      (decodeHAMImage cmap is4Bit depth rows)[i]? =
        (rows[i]?).map (decodeHAMRowFrom cmap is4Bit depth (0, 0, 0))) ∧
    (∀ (cmap : List (Nat × Nat × Nat)) (is4Bit : Bool) (depth : Nat)
       (prev : Nat × Nat × Nat) (v : Nat) (rest : List Nat),
      decodeHAMRowFrom cmap is4Bit depth prev (v :: rest) =
        hamStep cmap is4Bit depth prev v ::
          decodeHAMRowFrom cmap is4Bit depth (hamStep cmap is4Bit depth prev v) rest) ∧
    (∀ (cmap : List (Nat × Nat × Nat)) (is4Bit : Bool) (depth : Nat)
       (prev : Nat × Nat × Nat) (v : Nat), v >>> (depth - 2) &&& 3 = 1 →
      (hamStep cmap is4Bit depth prev v).1 = prev.1 ∧
      (hamStep cmap is4Bit depth prev v).2.1 = prev.2.1) ∧
    (∀ (cmap : List (Nat × Nat × Nat)) (is4Bit : Bool) (depth : Nat)
       (prev : Nat × Nat × Nat) (v : Nat), v >>> (depth - 2) &&& 3 = 2 →
      (hamStep cmap is4Bit depth prev v).2.1 = prev.2.1 ∧
      (hamStep cmap is4Bit depth prev v).2.2 = prev.2.2) ∧
    (∀ (cmap : List (Nat × Nat × Nat)) (is4Bit : Bool) (depth : Nat)
       (prev : Nat × Nat × Nat) (v : Nat), v >>> (depth - 2) &&& 3 = 3 →
      (hamStep cmap is4Bit depth prev v).1 = prev.1 ∧
      (hamStep cmap is4Bit depth prev v).2.2 = prev.2.2) := by
  refine ⟨?_, ?_, ?_, ?_, ?_⟩
  · intro cmap is4Bit depth rows i
    simp [decodeHAMImage]
  · intro cmap is4Bit depth prev v rest
    rfl
  · intro cmap is4Bit depth prev v h
    constructor <;> simp [hamStep, h]
  · intro cmap is4Bit depth prev v h
    constructor <;> simp [hamStep, h]
  · intro cmap is4Bit depth prev v h
    constructor <;> simp [hamStep, h]

/-- Witness for C7: in 6-plane HAM, value 0b010101 selects modify-blue
with index 5 and holds red and green of the previous pixel (7,8,9);
value 0b100101 selects modify-red and holds green and blue. -/
theorem c7_ham_hold_and_reset_witness :
    (hamStep [] false 6 (7, 8, 9) 21).1 = 7 ∧ (hamStep [] false 6 (7, 8, 9) 21).2.1 = 8 ∧
    (hamStep [] false 6 (7, 8, 9) 37).2.1 = 8 ∧ (hamStep [] false 6 (7, 8, 9) 37).2.2 = 9 ∧
    hamStep [] false 6 (7, 8, 9) 21 = (7, 8, 89) :=
  ⟨(c7_ham_hold_and_reset.2.2.1 [] false 6 (7, 8, 9) 21 (by decide)).1,
   (c7_ham_hold_and_reset.2.2.1 [] false 6 (7, 8, 9) 21 (by decide)).2,
   (c7_ham_hold_and_reset.2.2.2.1 [] false 6 (7, 8, 9) 37 (by decide)).1,
   (c7_ham_hold_and_reset.2.2.2.1 [] false 6 (7, 8, 9) 37 (by decide)).2,
   by decide⟩

/-! ## ILBM decoding and buffer ownership on failure
(`DecodeILBM`, image_decoder.c:727-922; `Decode`, iffpicture.c:2479-2567)

`Decode` allocates the zero-filled pixel buffer and dispatches to the
format decoder; `DecodeILBM` allocates the zero-filled palette-index
buffer (and its own pixel buffer) and decodes row by row, reading one
plane row per plane per scanline (ByteRun1-decompressed when the
compression code is 1).  When a plane read fails mid-decode, `DecodeILBM`
frees only its scratch buffers and returns `RETURN_FAIL` with
`picture->pixelData` and `picture->paletteIndices` still set; `Decode`
then frees `pixelData` and sets it to NULL, but never touches
`paletteIndices`.  The embedding (for the `masking != mskHasMask` path)
tracks the two `IFFPicture` buffer fields through the call. -/

/-- `RowBytes` macro: pixel width rounded up to a 16-bit boundary,
divided by 8. -/
def rowBytesOf (w : Nat) : Nat := ((w + 15) / 16) * 2

/-- An exact `ReadChunkBytes`: `n` bytes from the stream or failure. -/
def readBytesExact (stream : List Nat) (n : Nat) : Option (List Nat × List Nat) :=
  if stream.length < n then none else some (stream.take n, stream.drop n)

/-- One plane row from the stream: ByteRun1-decompressed when the
compression code is `cmpByteRun1` (1), raw bytes otherwise. -/
def readPlaneRow (stream : List Nat) (rowBytes compression : Nat) : Option (List Nat × List Nat) :=
  if compression = 1 then decompressByteRun1 stream rowBytes
  else readBytesExact stream rowBytes

/-- The plane rows of one scanline, in plane order. -/
def readPlaneRows (rowBytes compression : Nat) : Nat → List Nat → Option (List (List Nat) × List Nat)
  | 0, s => some ([], s)
  | n + 1, s =>
    match readPlaneRow s rowBytes compression with
    | none => none
    | some (row, s1) =>
      match readPlaneRows rowBytes compression n s1 with
      | none => none
      | some (rows, s2) => some (row :: rows, s2)

/-- The two `IFFPicture` buffer fields an ILBM decode populates. -/
structure PicBufs where
  pixelData : Option (List (Nat × Nat × Nat))
  paletteIndices : Option (List Nat)
deriving DecidableEq

/-- Row loop of `DecodeILBM` (masking `mskNone`): per scanline read all
plane rows, combine them into pixel indices, and look the RGB values up
through the clamped palette lookup.  The clamp is applied BEFORE the
index is stored into the palette-index buffer (image_decoder.c:884-890:
`pixelIndex` is reassigned by the clamp and then written through
`paletteOut`), so the buffer holds clamped indices.  On success the
palette-index and pixel contents written so far plus the remaining
stream are returned; a failed plane read aborts, keeping what was
already written into the two picture buffers (`Except.error` carries the
written prefixes). -/
def ilbmRowsGo (w depth compression rowBytes : Nat) (cmap : List (Nat × Nat × Nat)) (is4Bit : Bool) :
    Nat → List Nat →
      Except (List Nat × List (Nat × Nat × Nat)) (List Nat × List (Nat × Nat × Nat) × List Nat)
  | 0, s => .ok ([], [], s)
  | n + 1, s =>
    match readPlaneRows rowBytes compression depth s with
    | none => .error ([], [])
    | some (planes, s1) =>
      let inds := (planesToIndices planes w).map (fun idx => clampIndex idx cmap.length)
      let rgb := (planesToIndices planes w).map (lookupRGB cmap is4Bit)
      match ilbmRowsGo w depth compression rowBytes cmap is4Bit n s1 with
      | .error p => .error (inds ++ p.1, rgb ++ p.2)
      | .ok p => .ok (inds ++ p.1, rgb ++ p.2.1, p.2.2)

/-- `DecodeILBM` (masking `mskNone`) as a transformer of the picture's
buffer state: both buffers are allocated zero-filled up front and remain
set in the picture whether or not the row loop fails. -/
def decodeILBMPicture (stream : List Nat) (w h depth compression : Nat)
    (cmap : List (Nat × Nat × Nat)) (is4Bit : Bool) : Bool × PicBufs :=
  match ilbmRowsGo w depth compression (rowBytesOf w) cmap is4Bit h stream with
  | .ok p => (true, ⟨some p.2.1, some p.1⟩)
  | .error p =>
    (false, ⟨some (p.2 ++ List.replicate (w * h - p.2.length) (0, 0, 0)),
             some (p.1 ++ List.replicate (w * h - p.1.length) 0)⟩)

/-- `Decode` around the ILBM decoder (iffpicture.c:2555-2564): on
failure it frees the pixel buffer and clears that field; the
palette-index field is left untouched. -/
def decodeViaDecodeILBM (stream : List Nat) (w h depth compression : Nat)
    (cmap : List (Nat × Nat × Nat)) (is4Bit : Bool) : Bool × PicBufs :=
  let r := decodeILBMPicture stream w h depth compression cmap is4Bit
  if r.1 then r else (false, ⟨none, r.2.paletteIndices⟩)

/-- C8.  A failed decode does NOT discard the palette-index buffer: a
1x2 single-plane uncompressed ILBM with a two-entry palette whose BODY
holds exactly one row (two bytes, first byte 0x80) decodes its first
scanline (index 1), fails reading the second, and returns failure with
the pixel buffer freed and unset but with `picture->paletteIndices`
still set - retaining the half-populated index buffer [1, 0] -
contradicting the claim that both buffers are released and left unset.
(`Decode` frees only `pixelData`, iffpicture.c:2558-2563, and the
mid-decode error paths of `DecodeILBM`, image_decoder.c:813-835, free
only the scratch buffers.) -/
theorem c8_failed_decode_retains_paletteIndices :
    decodeViaDecodeILBM [128, 0] 1 2 1 0 [(9, 9, 9), (7, 7, 7)] false =
      (false, ⟨none, some [1, 0]⟩) ∧
    (decodeViaDecodeILBM [128, 0] 1 2 1 0 [(9, 9, 9), (7, 7, 7)] false).2.paletteIndices ≠
      none := by
  refine ⟨by decide, by decide⟩

/-! ## Output-format recommendation (`GetOptimalPNGConfig`,
image_analyzer.c:81-250)

The embedding keeps the picture fields the function reads and the
produced `PNGConfig` fields.  Allocation failures (which would return
`RETURN_FAIL`) are not modelled; the guards on null arguments and
unloaded pictures precede everything modelled here. -/

/-- libpng color type `PNG_COLOR_TYPE_GRAY`. -/
def PNG_COLOR_TYPE_GRAY : Nat := 0

/-- libpng color type `PNG_COLOR_TYPE_RGB`. -/
def PNG_COLOR_TYPE_RGB : Nat := 2

/-- libpng color type `PNG_COLOR_TYPE_PALETTE`. -/
def PNG_COLOR_TYPE_PALETTE : Nat := 3

/-- libpng color type `PNG_COLOR_TYPE_RGB_ALPHA`. -/
def PNG_COLOR_TYPE_RGBA : Nat := 6

/-- FourCC of the DEEP form type. -/
def ID_DEEP : Nat := 0x44454550

/-- FourCC of the RGBN form type. -/
def ID_RGBN : Nat := 0x5247424E

/-- FourCC of the RGB8 form type. -/
def ID_RGB8 : Nat := 0x52474238

/-- FourCC of the ILBM form type. -/
def ID_ILBM : Nat := 0x494C424D

/-- Masking mode `mskHasTransparentColor`. -/
def mskHasTransparentColor : Nat := 2

/-- The picture fields `GetOptimalPNGConfig` reads. -/
structure AnalyzerPic where
  isHAM : Bool
  isEHB : Bool
  isIndexed : Bool
  isGrayscale : Bool
  hasAlpha : Bool
  formtype : Nat
  nPlanes : Nat
  cmap : Option (List (Nat × Nat × Nat) × Bool)
  masking : Nat
  transparentColor : Nat
  paletteIndices : Option (List Nat)
  width : Nat
  height : Nat

/-- The `PNGConfig` fields `GetOptimalPNGConfig` fills; `trans` is the
recommended transparent palette index (`config->trans[0]` when
`num_trans` is 1, `none` when `num_trans` stays 0). -/
structure PNGConfigRec where
  color_type : Nat
  bit_depth : Nat
  has_alpha : Bool
  num_palette : Nat
  palette : List (Nat × Nat × Nat)
  trans : Option Nat
deriving DecidableEq

/-- Optimal bit depth for an indexed image (image_analyzer.c:124-146). -/
def bitDepthFor (numColors : Nat) : Nat :=
  if numColors ≤ 2 then 1 else if numColors ≤ 4 then 2 else if numColors ≤ 16 then 4 else 8

/-- The transparent-index decision (image_analyzer.c:175-227): only when
the masking mode is `mskHasTransparentColor` AND the image has been
decoded (`paletteIndices` non-null) is the buffer scanned over the
`width*height` pixels; the index (the BMHD transparent color truncated
to a byte) is recommended only when it occurs, and it is suppressed when
the caller passed `opaque` and the index is 0. -/
def pngTransFor (pic : AnalyzerPic) (opq : Bool) : Option Nat :=
  match pic.paletteIndices with
  | none => none
  | some l =>
    if pic.masking = mskHasTransparentColor then
      let t := pic.transparentColor % 256
      if t ∈ l.take (pic.width * pic.height) then
        if opq ∧ t = 0 then none else some t
      else none
    else none

/-- Fallback branch for non-indexed images without a usable palette
(image_analyzer.c:228-244). -/
def pngNonIndexed (pic : AnalyzerPic) : PNGConfigRec :=
  if pic.isGrayscale then
    ⟨PNG_COLOR_TYPE_GRAY,
     if pic.nPlanes = 1 then 1 else if pic.nPlanes ≤ 8 then pic.nPlanes else 8,
     pic.hasAlpha, 0, [], none⟩
  else ⟨PNG_COLOR_TYPE_RGB, 8, pic.hasAlpha, 0, [], none⟩

/-- `GetOptimalPNGConfig`: true-color/HAM/EHB pictures get 8-bit RGB(A)
and no transparent index; indexed pictures with a palette get a
gray/palette color type, the minimal bit depth, the (4-bit widened)
palette, and the transparent-index recommendation of `pngTransFor`. -/
def getOptimalPNGConfig (pic : AnalyzerPic) (opq : Bool) : PNGConfigRec :=
  if pic.isHAM ∨ pic.isEHB ∨ pic.formtype = ID_DEEP ∨ pic.formtype = ID_RGBN ∨
      pic.formtype = ID_RGB8 then
    ⟨if pic.hasAlpha then PNG_COLOR_TYPE_RGBA else PNG_COLOR_TYPE_RGB, 8,
     pic.hasAlpha, 0, [], none⟩
  else
    match pic.cmap with
    | some (data, is4Bit) =>
      if pic.isIndexed then
        if pic.isGrayscale then
          ⟨PNG_COLOR_TYPE_GRAY, bitDepthFor data.length, pic.hasAlpha, 0, [],
           pngTransFor pic opq⟩
        else
          ⟨PNG_COLOR_TYPE_PALETTE, bitDepthFor data.length, pic.hasAlpha, data.length,
           data.map (fun e => (scale4Bit is4Bit e.1, scale4Bit is4Bit e.2.1,
             scale4Bit is4Bit e.2.2)),
           pngTransFor pic opq⟩
      else pngNonIndexed pic
    | none => pngNonIndexed pic

/-- A recommended transparent index always occurs in the scanned prefix
of the decoded palette-index buffer. -/
theorem pngTransFor_some (pic : AnalyzerPic) (opq : Bool) (t : Nat)
    (h : pngTransFor pic opq = some t) :
    ∃ l, pic.paletteIndices = some l ∧ t ∈ l.take (pic.width * pic.height) ∧
      t = pic.transparentColor % 256 := by
  unfold pngTransFor at h
  cases hp : pic.paletteIndices with
  | none => rw [hp] at h; cases h
  | some l =>
    rw [hp] at h
    dsimp only at h
    by_cases hm : pic.masking = mskHasTransparentColor
    · rw [if_pos hm] at h
      by_cases hin : pic.transparentColor % 256 ∈ l.take (pic.width * pic.height)
      · rw [if_pos hin] at h
        by_cases hop : opq ∧ pic.transparentColor % 256 = 0
        · rw [if_pos hop] at h; cases h
        · rw [if_neg hop] at h
          cases h
          exact ⟨l, rfl, hin, rfl⟩
      · rw [if_neg hin] at h; cases h
    · rw [if_neg hm] at h
      cases h

/-- With the keep-black-opaque flag, a transparent index of 0 is never
recommended. -/
theorem pngTransFor_keepBlack (pic : AnalyzerPic) (h : pic.transparentColor % 256 = 0) :
    pngTransFor pic true = none := by
  unfold pngTransFor
  cases hp : pic.paletteIndices with
  | none => rfl
  | some l =>
    dsimp only
    simp only [h]
    split_ifs <;> simp_all

/-- An undecoded picture (no palette-index buffer) never gets a
transparent-index recommendation. -/
theorem pngTransFor_undecoded (pic : AnalyzerPic) (opq : Bool)
    (h : pic.paletteIndices = none) : pngTransFor pic opq = none := by
  unfold pngTransFor
  rw [h]

/-- The transparent-index field of the produced configuration is either
absent or exactly the recommendation of `pngTransFor`. -/
theorem getOptimalPNGConfig_trans (pic : AnalyzerPic) (opq : Bool) :
    (getOptimalPNGConfig pic opq).trans = none ∨
    (getOptimalPNGConfig pic opq).trans = pngTransFor pic opq := by
  unfold getOptimalPNGConfig
  by_cases h1 : pic.isHAM = true ∨ pic.isEHB = true ∨ pic.formtype = ID_DEEP ∨
      pic.formtype = ID_RGBN ∨ pic.formtype = ID_RGB8
  · rw [if_pos h1]; left; rfl
  · rw [if_neg h1]
    cases hc : pic.cmap with
    | none =>
      left
      unfold pngNonIndexed
      split_ifs <;> rfl
    | some p =>
      cases p with
      | mk data is4Bit =>
        dsimp only
        by_cases h2 : pic.isIndexed = true
        · rw [if_pos h2]
          by_cases h3 : pic.isGrayscale = true
          · rw [if_pos h3]; right; rfl
          · rw [if_neg h3]; right; rfl
        · rw [if_neg h2]
          left
          unfold pngNonIndexed
          split_ifs <;> rfl

/-- C9.  `GetOptimalPNGConfig` recommends a transparent palette index
only when that exact index (the BMHD transparent color as a byte) occurs
in the scanned prefix of the decoded palette-index buffer - hence never
speculatively and never before the image has been decoded (an unset
palette-index buffer yields no recommendation) - and the recommendation
is suppressed for index 0 when the caller requests the keep-black-opaque
legacy behavior. -/
theorem c9_transparent_index_recommendation :
    (∀ (pic : AnalyzerPic) (opq : Bool) (t : Nat),
      (getOptimalPNGConfig pic opq).trans = some t →
        ∃ l, pic.paletteIndices = some l ∧ t ∈ l.take (pic.width * pic.height) ∧
          t = pic.transparentColor % 256) ∧
    (∀ (pic : AnalyzerPic) (opq : Bool), pic.paletteIndices = none →
      (getOptimalPNGConfig pic opq).trans = none) ∧
    (∀ pic : AnalyzerPic, pic.transparentColor % 256 = 0 →
      (getOptimalPNGConfig pic true).trans = none) := by
  refine ⟨?_, ?_, ?_⟩
  · intro pic opq t h
    cases getOptimalPNGConfig_trans pic opq with
    | inl hnone => rw [hnone] at h; cases h
    | inr heq =>
      rw [heq] at h
      exact pngTransFor_some pic opq t h
  · intro pic opq h
    cases getOptimalPNGConfig_trans pic opq with
    | inl hnone => exact hnone
    | inr heq => rw [heq]; exact pngTransFor_undecoded pic opq h
  · intro pic h
    cases getOptimalPNGConfig_trans pic true with
    | inl hnone => exact hnone
    | inr heq => rw [heq]; exact pngTransFor_keepBlack pic h

/-- A decoded 2x1 indexed test picture with transparent color 3 occurring
in its palette-index buffer. -/
def picC9 : AnalyzerPic :=
  ⟨false, false, true, false, false, ID_ILBM, 2,
   some ([(0, 0, 0), (10, 10, 10), (20, 20, 20), (30, 30, 30)], false),
   mskHasTransparentColor, 3, some [0, 3], 2, 1⟩

/-- The same picture with transparent color 0. -/
def picC9zero : AnalyzerPic :=
  ⟨false, false, true, false, false, ID_ILBM, 2,
   some ([(0, 0, 0), (10, 10, 10), (20, 20, 20), (30, 30, 30)], false),
   mskHasTransparentColor, 0, some [0, 3], 2, 1⟩

/-- Witness for C9: index 3 is recommended for the decoded test picture
(and indeed occurs in its buffer), while index 0 under keep-black-opaque
is suppressed. -/
theorem c9_transparent_index_recommendation_witness :
    (getOptimalPNGConfig picC9 false).trans = some 3 ∧
    (∃ l, picC9.paletteIndices = some l ∧ 3 ∈ l.take (picC9.width * picC9.height) ∧
      3 = picC9.transparentColor % 256) ∧
    (getOptimalPNGConfig picC9zero true).trans = none :=
  ⟨by decide,
   c9_transparent_index_recommendation.1 picC9 false 3 (by decide),
   c9_transparent_index_recommendation.2.2 picC9zero (by decide)⟩
